import Mathlib

/-!
A shallow embedding of the `combined_config` Python library
(`src/lib/combined_config/config.py`) and proofs about it.

The library merges configuration values from heterogeneous sources
(`dict`, `argparse.Namespace`, `configparser.SectionProxy`) into one
precedence-ordered view (`CombinedConfig`), and can persist the merged
view to an ini file (`FileBackedConfigMixin.read` / `write`).

Modelling conventions:
* Python values of type `Any` are modelled by a type parameter `V` with
  decidable equality; ini-file values are `String`.
* Python `None` is modelled by `Option.none`; a source mapping a key to
  `None` is a `(key, none)` entry, indistinguishable from absence through
  `get`/`getattr`, exactly as in Python.
* Python exceptions (`ConfigException`) are modelled with `Except String`,
  the string being the exception message.
* Python `dict`s are modelled as association lists with insertion-order
  semantics: assigning to an existing key updates it in place, a new key
  is appended (`dictSet`).
* `configparser`'s `optionxform` (lower-casing of option keys) is modelled
  where the Python code exercises it: `SectionProxy.get` lower-cases the
  queried key, and `ConfigParser.read_dict` lower-cases incoming keys.
  An on-disk ini file is modelled by its parsed document (`IniDoc`).
-/

deriving instance DecidableEq for Except

/-- The runtime type of a Python object attached as a config source.
`subclassOf b n` is a proper subclass (named `n`) of the type `b`;
`otherT n` is a type unrelated to the three recognised ones. -/
inductive PyType where
  | dictT
  | namespaceT
  | sectionProxyT
  | subclassOf (base : PyType) (name : String)
  | otherT (name : String)
deriving DecidableEq

/-- `str(type(x))`, as interpolated into exception messages. -/
def typeName : PyType → String
  | .dictT => "<class 'dict'>"
  | .namespaceT => "<class 'argparse.Namespace'>"
  | .sectionProxyT => "<class 'configparser.SectionProxy'>"
  | .subclassOf _ n => n
  | .otherT n => n

/-- `type(config) in CONFIG_TYPES`: exact type-object membership in
`CONFIG_TYPES = {argparse.Namespace, configparser.SectionProxy, dict}`.
A proper subclass is a distinct type object and is not a member. -/
def typeInConfigTypes : PyType → Bool
  | .dictT => true
  | .namespaceT => true
  | .sectionProxyT => true
  | _ => false

/-- The three adapter shapes `_get_value` has registered implementations
for. -/
inductive Shape where
  | dictS
  | namespaceS
  | sectionS
deriving DecidableEq

/-- MRO-based dispatch of `singledispatchmethod _get_value`: a subclass
instance dispatches to its nearest registered base; unrelated types fall
through to the raising default implementation (`none`). -/
def resolveShape : PyType → Option Shape
  | .dictT => some .dictS
  | .namespaceT => some .namespaceS
  | .sectionProxyT => some .sectionS
  | .subclassOf b _ => resolveShape b
  | .otherT _ => none

/-- `isinstance(x, argparse.Namespace)`. -/
def isNamespaceInstance : PyType → Bool
  | .namespaceT => true
  | .subclassOf b _ => isNamespaceInstance b
  | _ => false

/-- Lookup in an insertion-ordered Python dict modelled as an
association list. -/
def dictGet {α : Type} (d : List (String × α)) (k : String) : Option α :=
  (d.find? (fun p => p.1 = k)).map (fun p => p.2)

/-- Assignment in an insertion-ordered Python dict: update in place if
the key exists, append otherwise. -/
def dictSet {α : Type} (d : List (String × α)) (k : String) (v : α) : List (String × α) :=
  if d.any (fun p => p.1 = k) then
    d.map (fun p => if p.1 = k then (k, v) else p)
  else
    d ++ [(k, v)]

/-- `configparser`'s default `optionxform`, `str.lower` (character-wise
lower-casing; ASCII-equivalent to Python's). -/
def optionxform (s : String) : String := String.mk (s.data.map Char.toLower)

/-- `d.get(k)` on a dict whose values may be `None`: an absent key and a
key stored as `None` both yield `None`. -/
def entriesGet {V : Type} (entries : List (String × Option V)) (k : String) : Option V :=
  (dictGet entries k).join

/-- One attached config source: its runtime type and its key/value
content (attribute dict for a `Namespace`, item dict otherwise). -/
structure Src (V : Type) where
  ty : PyType
  entries : List (String × Option V)
deriving DecidableEq

/-- The `ConfigException` message raised for unusable source types. -/
def noFetchMsg (t : PyType) : String :=
  "Don't know how to fetch values from config with type " ++ typeName t

/-- `CombinedConfig._get_value(config, key)`: dispatch on the source's
runtime type. `dict.get` and `getattr(_, _, None)` look the key up
verbatim; `SectionProxy.get` passes it through `optionxform` (lower-case)
first. Unregistered types raise `ConfigException`. -/
def getValue {V : Type} (c : Src V) (key : String) : Except String (Option V) :=
  match resolveShape c.ty with
  | some .dictS => .ok (entriesGet c.entries key)
  | some .namespaceS => .ok (entriesGet c.entries key)
  | some .sectionS => .ok (entriesGet c.entries (optionxform key))
  | none => .error (noFetchMsg c.ty)

/-- `ConfigVar`: one declared configuration variable. `default = none`
models Python `default=None` (no default recorded). Fields not used by
the combiner logic (`shortname`, `action`, `type`, `help`, `metavar`)
only feed CLI-parser construction and are carried as plain data. -/
structure ConfigVar (V : Type) where
  name : String
  shortname : Option String := none
  action : Option String := none
  default : Option V := none
  type : Option String := none
  help : Option String := none
  metavar : Option String := none

/-- The state of a `CombinedConfig`: the declared variables (a dict
keyed by name), the derived defaults dict, and the deque of attached
sources. -/
structure CombinedConfig (V : Type) where
  config_vars : List (String × ConfigVar V)
  defaults : List (String × V)
  configs : List (Src V)

/-- One iteration of the `CombinedConfig.__init__` loop: register the
variable by name; record `defaults[name]` only when
`default is not None`. -/
def mkConfigStep {V : Type} (cc : CombinedConfig V) (var : ConfigVar V) : CombinedConfig V :=
  { cc with
    config_vars := dictSet cc.config_vars var.name var
    defaults :=
      match var.default with
      | some d => dictSet cc.defaults var.name d
      | none => cc.defaults }

/-- `CombinedConfig.__init__(*config_vars)`. -/
def mkConfig {V : Type} (vars : List (ConfigVar V)) : CombinedConfig V :=
  vars.foldl mkConfigStep { config_vars := [], defaults := [], configs := [] }

/-- Declared variable names, in registration order. -/
def varNames {V : Type} (cc : CombinedConfig V) : List String :=
  cc.config_vars.map (fun p => p.1)

/-- The loop body of `CombinedConfig.find`: scan the sources front to
back, return the first present value, fall through to
`defaults.get(key)`. -/
def findIn {V : Type} (defaults : List (String × V)) (key : String) :
    List (Src V) → Except String (Option V)
  | [] => .ok (dictGet defaults key)
  | c :: rest =>
    match getValue c key with
    | .error e => .error e
    | .ok (some v) => .ok (some v)
    | .ok none => findIn defaults key rest

/-- `CombinedConfig.find(key)`. -/
def CombinedConfig.find {V : Type} (cc : CombinedConfig V) (key : String) :
    Except String (Option V) :=
  findIn cc.defaults key cc.configs

/-- `CombinedConfig.append(config)`: validate the exact runtime type
against `CONFIG_TYPES`, then push at the back of the deque. -/
def CombinedConfig.append {V : Type} (cc : CombinedConfig V) (c : Src V) :
    Except String (CombinedConfig V) :=
  if typeInConfigTypes c.ty then
    .ok { cc with configs := cc.configs ++ [c] }
  else
    .error (noFetchMsg c.ty)

/-- `CombinedConfig.prepend(config)`: same validation, push at the
front. -/
def CombinedConfig.prepend {V : Type} (cc : CombinedConfig V) (c : Src V) :
    Except String (CombinedConfig V) :=
  if typeInConfigTypes c.ty then
    .ok { cc with configs := c :: cc.configs }
  else
    .error (noFetchMsg c.ty)

/-- The set comprehension of `CombinedConfig.defaulted_values`, iterated
over the given keys: keep `k` when `k in defaults and find(k) ==
defaults[k]` (short-circuit: `find` only runs when `k` has a recorded
default). -/
def defaultedFilter {V : Type} [DecidableEq V] (cc : CombinedConfig V) :
    List String → Except String (List String)
  | [] => .ok []
  | k :: ks =>
    match
      (match dictGet cc.defaults k with
       | none => Except.ok false
       | some d =>
         match cc.find k with
         | .error e => .error e
         | .ok v => .ok (decide (v = some d))) with
    | .error e => .error e
    | .ok keep =>
      match defaultedFilter cc ks with
      | .error e => .error e
      | .ok rest => .ok (if keep then k :: rest else rest)

/-- `CombinedConfig.defaulted_values` (a Python set, modelled as the
list of members in iteration order). -/
def CombinedConfig.defaulted_values {V : Type} [DecidableEq V] (cc : CombinedConfig V) :
    Except String (List String) :=
  defaultedFilter cc (varNames cc)

/-- `any(isinstance(s, argparse.Namespace) for s in self._get_sources(k))`:
lazily scan the sources; a source enters the generator when its
`_get_value` is present, and `any` stops at the first `Namespace` among
those. -/
def providedAny {V : Type} (key : String) : List (Src V) → Except String Bool
  | [] => .ok false
  | c :: rest =>
    match getValue c key with
    | .error e => .error e
    | .ok (some _) =>
      if isNamespaceInstance c.ty then .ok true else providedAny key rest
    | .ok none => providedAny key rest

/-- The set comprehension of `CombinedConfig.provided_args` over the
given keys. -/
def providedFilter {V : Type} (cc : CombinedConfig V) :
    List String → Except String (List String)
  | [] => .ok []
  | k :: ks =>
    match providedAny k cc.configs with
    | .error e => .error e
    | .ok b =>
      match providedFilter cc ks with
      | .error e => .error e
      | .ok rest => .ok (if b then k :: rest else rest)

/-- `CombinedConfig.provided_args`. -/
def CombinedConfig.provided_args {V : Type} (cc : CombinedConfig V) :
    Except String (List String) :=
  providedFilter cc (varNames cc)

/-- The loop of `CombinedConfig.variables_with_values` over the given
keys: `self.values[k]` is `find(k)` (every iterated key is declared, so
the `Values.__getitem__` membership guard always passes); keep the
non-`None` results. -/
def vwvFilter {V : Type} (cc : CombinedConfig V) :
    List String → Except String (List (String × V))
  | [] => .ok []
  | k :: ks =>
    match cc.find k with
    | .error e => .error e
    | .ok v =>
      match vwvFilter cc ks with
      | .error e => .error e
      | .ok rest =>
        .ok
          (match v with
           | some x => (k, x) :: rest
           | none => rest)

/-- `CombinedConfig.variables_with_values`. -/
def CombinedConfig.variables_with_values {V : Type} (cc : CombinedConfig V) :
    Except String (List (String × V)) :=
  vwvFilter cc (varNames cc)

/-- A parsed ini document (the state `configparser` holds after
`read_file` and writes back with `write`): sections in order, each a
dict of option keys (already passed through `optionxform`) to string
values. -/
abbrev IniDoc : Type := List (String × List (String × String))

/-- One value of the `ini_section_names` dict: either the literal
`"__ALL__"` marker or a tuple of variable names. -/
inductive SectionSpec where
  | all
  | names (l : List String)
deriving DecidableEq

/-- A `CombinedConfig` subclass mixing in `FileBackedConfigMixin`: the
combined config plus the `ini_section_names` class attribute. The
`filename` attribute is represented by passing the file's parsed
document (`IniDoc`) to `read`/`write` explicitly. -/
structure FileBackedConfig where
  cc : CombinedConfig String
  ini_section_names : List (String × SectionSpec)

/-- `config_parser[section_name]` attached as a source: a
`configparser.SectionProxy` whose entries are the section's stored
key/value pairs (string values, never `None`). -/
def sectionSrc (kvs : List (String × String)) : Src String :=
  { ty := .sectionProxyT, entries := kvs.map (fun p => (p.1, some p.2)) }

/-- The loop of `FileBackedConfigMixin.read`: for every declared section
name (in `ini_section_names` order) present in the parsed file, append
that section to the config. -/
def readSections (doc : IniDoc) :
    List (String × SectionSpec) → CombinedConfig String →
    Except String (CombinedConfig String)
  | [], cc => .ok cc
  | (n, _) :: rest, cc =>
    match dictGet doc n with
    | some kvs =>
      match cc.append (sectionSrc kvs) with
      | .error e => .error e
      | .ok cc' => readSections doc rest cc'
    | none => readSections doc rest cc

/-- `FileBackedConfigMixin.read`, with the parsed on-disk file passed as
`doc`. -/
def FileBackedConfig.read (fb : FileBackedConfig) (doc : IniDoc) :
    Except String (CombinedConfig String) :=
  readSections doc fb.ini_section_names fb.cc

/-- The `variables` dict computed by `FileBackedConfigMixin.write`:
`variables_with_values` filtered to keys that are CLI-provided or not
currently defaulted. -/
def persistable (cc : CombinedConfig String) : Except String (List (String × String)) :=
  match cc.defaulted_values with
  | .error e => .error e
  | .ok defaulted =>
    match cc.provided_args with
    | .error e => .error e
    | .ok provided =>
      match cc.variables_with_values with
      | .error e => .error e
      | .ok vwv =>
        .ok (vwv.filter (fun kv => provided.contains kv.1 || !(defaulted.contains kv.1)))

/-- The inner loop of `write` for an explicit section list: `for
config_var in config_vars: if config_var in variables:
values[section_name][config_var] = variables[config_var]`. -/
def fillExplicit (vars : List (String × String)) (l : List String) :
    List (String × String) :=
  l.foldl
    (fun acc k =>
      match dictGet vars k with
      | some v => dictSet acc k v
      | none => acc)
    []

/-- The section loop of `write` over `ini_section_names`, carrying the
`values` dict: the first `"__ALL__"` section replaces the whole dict
with `{section_name: variables}` and breaks; an explicit section is
filled with its intersection with `variables`. -/
def buildSectionValuesAux (vars : List (String × String)) :
    List (String × SectionSpec) → IniDoc → IniDoc
  | [], acc => acc
  | (n, .all) :: _, _ => [(n, vars)]
  | (n, .names l) :: rest, acc =>
    buildSectionValuesAux vars rest (dictSet acc n (fillExplicit vars l))

/-- The computed `values` dict of `write`, starting from
`{k: {} for k in self.ini_section_names.keys()}`. -/
def buildSectionValues (iniNames : List (String × SectionSpec))
    (vars : List (String × String)) : IniDoc :=
  buildSectionValuesAux vars iniNames (iniNames.map (fun p => (p.1, ([] : List (String × String)))))

/-- One section step of `ConfigParser.read_dict`: create the section if
missing, then set each incoming key (lower-cased by `optionxform`),
overwriting existing options and keeping the rest. -/
def mergeSection (doc : IniDoc) (n : String) (kvs : List (String × String)) : IniDoc :=
  (if doc.any (fun p => p.1 = n) then doc else doc ++ [(n, [])]).map
    (fun p =>
      if p.1 = n then
        (p.1, kvs.foldl (fun s kv => dictSet s (optionxform kv.1) kv.2) p.2)
      else p)

/-- `ConfigParser.read_dict(values)` applied to the parsed on-disk
document. -/
def readDict (doc : IniDoc) (values : IniDoc) : IniDoc :=
  values.foldl (fun d p => mergeSection d p.1 p.2) doc

/-- `FileBackedConfigMixin.write`, with the parsed on-disk file passed
as `doc` and the merged document returned (the code then writes it back
verbatim, overwriting the file). -/
def FileBackedConfig.write (fb : FileBackedConfig) (doc : IniDoc) :
    Except String IniDoc :=
  match persistable fb.cc with
  | .error e => .error e
  | .ok vars => .ok (readDict doc (buildSectionValues fb.ini_section_names vars))

/-! ### Helper lemmas about the dict model -/

theorem dictGet_cons {α : Type} (p : String × α) (d : List (String × α)) (k : String) :
    dictGet (p :: d) k = if p.1 = k then some p.2 else dictGet d k := by
  by_cases h : p.1 = k <;> simp [dictGet, List.find?_cons, h]

theorem dictGet_append {α : Type} (d d' : List (String × α)) (k : String) :
    dictGet (d ++ d') k =
      match dictGet d k with
      | some v => some v
      | none => dictGet d' k := by
  induction d with
  | nil => simp [dictGet]
  | cons p rest ih =>
    by_cases h : p.1 = k <;> simp [dictGet_cons, h, ih]

theorem dictGet_eq_none_of_not_mem {α : Type} (d : List (String × α)) (k : String)
    (h : ∀ p ∈ d, p.1 ≠ k) : dictGet d k = none := by
  induction d with
  | nil => rfl
  | cons p rest ih =>
    rw [dictGet_cons]
    have hp : p.1 ≠ k := h p (List.mem_cons_self p rest)
    simp only [hp, if_false]
    exact ih (fun q hq => h q (List.mem_cons_of_mem p hq))

theorem dictGet_mapUpd_self {α : Type} (d : List (String × α)) (k : String) (v : α)
    (h : (d.any (fun p => p.1 = k)) = true) :
    dictGet (d.map (fun p => if p.1 = k then (k, v) else p)) k = some v := by
  induction d with
  | nil => simp at h
  | cons p rest ih =>
    rw [List.map_cons]
    by_cases hp : p.1 = k
    · simp [dictGet_cons, hp]
    · have hrest : (rest.any (fun p => p.1 = k)) = true := by
        simp only [List.any_cons, Bool.or_eq_true, decide_eq_true_eq] at h
        rcases h with h | h
        · exact absurd h hp
        · simpa using h
      rw [if_neg hp, dictGet_cons, if_neg hp]
      exact ih hrest

theorem dictGet_mapUpd_ne {α : Type} (d : List (String × α)) (k k' : String) (v : α)
    (h : k' ≠ k) :
    dictGet (d.map (fun p => if p.1 = k then (k, v) else p)) k' = dictGet d k' := by
  induction d with
  | nil => rfl
  | cons p rest ih =>
    rw [List.map_cons]
    by_cases hp : p.1 = k
    · rw [if_pos hp, dictGet_cons, dictGet_cons]
      have h1 : ¬((k, v).1 = k') := fun hk => h (by simpa using hk.symm)
      have h2 : ¬(p.1 = k') := fun hk => h (by rw [← hk, hp])
      rw [if_neg h1, if_neg h2]
      exact ih
    · rw [if_neg hp, dictGet_cons, dictGet_cons]
      by_cases hpk' : p.1 = k' <;> simp [hpk', ih]

theorem dictGet_dictSet_self {α : Type} (d : List (String × α)) (k : String) (v : α) :
    dictGet (dictSet d k v) k = some v := by
  unfold dictSet
  by_cases h : (d.any (fun p => p.1 = k)) = true
  · rw [if_pos h]
    exact dictGet_mapUpd_self d k v h
  · rw [if_neg h, dictGet_append]
    have hnone : dictGet d k = none := by
      apply dictGet_eq_none_of_not_mem
      intro p hp
      simp only [List.any_eq_true, decide_eq_true_eq] at h
      exact fun hpk => h ⟨p, hp, hpk⟩
    simp [hnone, dictGet_cons]

theorem dictGet_dictSet_ne {α : Type} (d : List (String × α)) (k k' : String) (v : α)
    (h : k' ≠ k) : dictGet (dictSet d k v) k' = dictGet d k' := by
  unfold dictSet
  by_cases hany : (d.any (fun p => p.1 = k)) = true
  · rw [if_pos hany]
    exact dictGet_mapUpd_ne d k k' v h
  · rw [if_neg hany, dictGet_append]
    cases hd : dictGet d k' with
    | some v' => simp
    | none =>
      simp only [hd]
      refine dictGet_eq_none_of_not_mem _ _ ?_
      intro p hp
      simp only [List.mem_singleton] at hp
      subst hp
      exact fun hk => h hk.symm

theorem dictSet_map_fst_of_mem {α : Type} (d : List (String × α)) (k : String) (v : α)
    (h : d.any (fun p => p.1 = k)) :
    (dictSet d k v).map Prod.fst = d.map Prod.fst := by
  unfold dictSet
  simp only [h, if_true, List.map_map]
  apply List.map_congr_left
  intro p _
  by_cases hp : p.1 = k <;> simp [hp, Function.comp]

theorem dictSet_map_fst_of_not_mem {α : Type} (d : List (String × α)) (k : String) (v : α)
    (h : ¬ d.any (fun p => p.1 = k)) :
    (dictSet d k v).map Prod.fst = d.map Prod.fst ++ [k] := by
  unfold dictSet
  simp [h]

theorem dictSet_nodup_fst {α : Type} (d : List (String × α)) (k : String) (v : α)
    (h : (d.map Prod.fst).Nodup) : ((dictSet d k v).map Prod.fst).Nodup := by
  by_cases hany : d.any (fun p => p.1 = k)
  · rw [dictSet_map_fst_of_mem d k v hany]; exact h
  · rw [dictSet_map_fst_of_not_mem d k v hany]
    have hk : k ∉ d.map Prod.fst := by
      intro hmem
      rcases List.mem_map.mp hmem with ⟨p, hp, hpk⟩
      simp only [List.any_eq_true, decide_eq_true_eq] at hany
      exact hany ⟨p, hp, hpk⟩
    simp [List.nodup_append, h, hk]

/-! ### Helper lemmas about `findIn` -/

theorem findIn_cons_none {V : Type} (df : List (String × V)) (key : String)
    (c : Src V) (l : List (Src V)) (h : getValue c key = Except.ok none) :
    findIn df key (c :: l) = findIn df key l := by
  simp [findIn, h]

theorem findIn_cons_some {V : Type} (df : List (String × V)) (key : String)
    (c : Src V) (l : List (Src V)) (v : V) (h : getValue c key = Except.ok (some v)) :
    findIn df key (c :: l) = Except.ok (some v) := by
  simp [findIn, h]

theorem findIn_skip_absent {V : Type} (df : List (String × V)) (key : String)
    (pre l : List (Src V)) (h : ∀ c ∈ pre, getValue c key = Except.ok none) :
    findIn df key (pre ++ l) = findIn df key l := by
  induction pre with
  | nil => rfl
  | cons c rest ih =>
    rw [List.cons_append,
      findIn_cons_none df key c (rest ++ l) (h c (List.mem_cons_self c rest))]
    exact ih (fun c' hc' => h c' (List.mem_cons_of_mem c hc'))

theorem findIn_skip_absent_all {V : Type} (df : List (String × V)) (key : String)
    (srcs : List (Src V)) (h : ∀ c ∈ srcs, getValue c key = Except.ok none) :
    findIn df key srcs = Except.ok (dictGet df key) := by
  have := findIn_skip_absent df key srcs [] h
  simpa using this

theorem findIn_append_of_hit {V : Type} (df : List (String × V)) (key : String)
    (l l2 : List (Src V)) (h : ∃ c ∈ l, getValue c key ≠ Except.ok none) :
    findIn df key (l ++ l2) = findIn df key l := by
  induction l with
  | nil => simp at h
  | cons c rest ih =>
    rw [List.cons_append]
    cases hv : getValue c key with
    | error e => simp [findIn, hv]
    | ok v =>
      cases v with
      | some w => simp [findIn, hv]
      | none =>
        rw [findIn_cons_none df key c (rest ++ l2) hv, findIn_cons_none df key c rest hv]
        apply ih
        rcases h with ⟨c', hc', hne⟩
        rcases List.mem_cons.mp hc' with hceq | hcrest
        · exact absurd hv (hceq ▸ hne)
        · exact ⟨c', hcrest, hne⟩

/-! ### Helper lemmas about `mkConfig` -/

theorem mkConfigFold_defaults_stable {V : Type} (vars : List (ConfigVar V))
    (acc : CombinedConfig V) (k : String) (h : ∀ var ∈ vars, var.name ≠ k) :
    dictGet ((vars.foldl mkConfigStep acc).defaults) k = dictGet acc.defaults k := by
  induction vars generalizing acc with
  | nil => rfl
  | cons v rest ih =>
    rw [List.foldl_cons, ih (mkConfigStep acc v) (fun u hu => h u (List.mem_cons_of_mem v hu))]
    show dictGet (mkConfigStep acc v).defaults k = dictGet acc.defaults k
    unfold mkConfigStep
    cases hv : v.default with
    | none => simp
    | some d =>
      simp only
      exact dictGet_dictSet_ne acc.defaults v.name k d
        (fun hk => (h v (List.mem_cons_self v rest)) hk.symm)

theorem mkConfigFold_defaults_get {V : Type} (vars : List (ConfigVar V))
    (acc : CombinedConfig V) (var : ConfigVar V) (hmem : var ∈ vars)
    (hnd : (vars.map ConfigVar.name).Nodup)
    (hacc : dictGet acc.defaults var.name = none) :
    dictGet ((vars.foldl mkConfigStep acc).defaults) var.name = var.default := by
  induction vars generalizing acc with
  | nil => cases hmem
  | cons v rest ih =>
    rw [List.foldl_cons]
    rw [List.map_cons, List.nodup_cons] at hnd
    rcases List.mem_cons.mp hmem with heq | hrest
    · subst heq
      have hnotin : ∀ u ∈ rest, u.name ≠ var.name := by
        intro u hu hname
        exact hnd.1 (hname ▸ List.mem_map_of_mem ConfigVar.name hu)
      rw [mkConfigFold_defaults_stable rest (mkConfigStep acc var) var.name hnotin]
      show dictGet (mkConfigStep acc var).defaults var.name = var.default
      unfold mkConfigStep
      cases hv : var.default with
      | some d => simp [dictGet_dictSet_self]
      | none => simpa using hacc
    · have hne : var.name ≠ v.name := by
        intro hname
        exact hnd.1 (hname ▸ List.mem_map_of_mem ConfigVar.name hrest)
      apply ih (mkConfigStep acc v) hrest hnd.2
      show dictGet (mkConfigStep acc v).defaults var.name = none
      unfold mkConfigStep
      cases hv : v.default with
      | none => exact hacc
      | some d =>
        simp only
        rw [dictGet_dictSet_ne acc.defaults v.name var.name d hne]
        exact hacc

theorem mkConfig_defaults_get {V : Type} (vars : List (ConfigVar V)) (var : ConfigVar V)
    (hmem : var ∈ vars) (hnd : (vars.map ConfigVar.name).Nodup) :
    dictGet (mkConfig vars).defaults var.name = var.default :=
  mkConfigFold_defaults_get vars _ var hmem hnd rfl

theorem typeIn_false_of_unrecognized (t : PyType) (h : resolveShape t = none) :
    typeInConfigTypes t = false := by
  cases t with
  | dictT => simp [resolveShape] at h
  | namespaceT => simp [resolveShape] at h
  | sectionProxyT => simp [resolveShape] at h
  | subclassOf b n => rfl
  | otherT n => rfl

/-! ### Claim theorems -/

/-- C1: for every `CombinedConfig`, every variable name and every ordered
source sequence, `find(name)` returns the value of the earliest
(front-most) attached source whose adapter yields a present value for
`name`, scanning strictly front to back and stopping at the first hit
(the sources behind the hit are never consulted, whatever they contain). -/
theorem find_first_present_source {V : Type} (cc : CombinedConfig V) (key : String)
    (v : V) (pre post : List (Src V)) (c : Src V)
    (hcfg : cc.configs = pre ++ c :: post)
    (hpre : ∀ s ∈ pre, getValue s key = Except.ok none)
    (hc : getValue c key = Except.ok (some v)) :
    cc.find key = Except.ok (some v) := by
  unfold CombinedConfig.find
  rw [hcfg, findIn_skip_absent cc.defaults key pre (c :: post) hpre,
    findIn_cons_some cc.defaults key c post v hc]

/-- Witness for C1: the spec's scenario, a key present in the second and
fourth of four sources and absent in the first and third resolves to the
second source's value. -/
theorem find_first_present_source_witness :
    ({ config_vars := [("k", { name := "k" })], defaults := [],
       configs := [⟨.dictT, []⟩, ⟨.dictT, [("k", some "b")]⟩, ⟨.dictT, []⟩,
         ⟨.dictT, [("k", some "d")]⟩] } : CombinedConfig String).find "k" =
      Except.ok (some "b") := by
  refine find_first_present_source _ "k" "b" [⟨.dictT, []⟩]
    [⟨.dictT, []⟩, ⟨.dictT, [("k", some "d")]⟩] ⟨.dictT, [("k", some "b")]⟩ rfl ?_ rfl
  intro s hs
  rw [List.mem_singleton] at hs
  subst hs
  rfl

/-- C2: for a declared variable that no attached source supplies, `find`
returns exactly the variable's recorded default (its `default` field when
non-`None`), and `None` when it has no recorded default. -/
theorem find_falls_back_to_default {V : Type} (vars : List (ConfigVar V))
    (srcs : List (Src V)) (var : ConfigVar V)
    (hnd : (vars.map ConfigVar.name).Nodup) (hmem : var ∈ vars)
    (hnone : ∀ c ∈ srcs, getValue c var.name = Except.ok none) :
    ({ mkConfig vars with configs := srcs } : CombinedConfig V).find var.name =
      Except.ok var.default := by
  show findIn (mkConfig vars).defaults var.name srcs = Except.ok var.default
  rw [findIn_skip_absent_all (mkConfig vars).defaults var.name srcs hnone,
    mkConfig_defaults_get vars var hmem hnd]

/-- Witness for C2: with a defaulted and an undefaulted variable and one
source supplying neither, `find` yields the default and `None`
respectively. -/
theorem find_falls_back_to_default_witness :
    ({ mkConfig [({ name := "has_default", default := some "magical" } : ConfigVar String),
          { name := "no_default" }] with
        configs := [⟨.dictT, [("other", some "x")]⟩] } : CombinedConfig String).find
        "has_default" = Except.ok (some "magical") ∧
    ({ mkConfig [({ name := "has_default", default := some "magical" } : ConfigVar String),
          { name := "no_default" }] with
        configs := [⟨.dictT, [("other", some "x")]⟩] } : CombinedConfig String).find
        "no_default" = Except.ok none := by
  constructor
  · refine find_falls_back_to_default
      [({ name := "has_default", default := some "magical" } : ConfigVar String),
        { name := "no_default" }]
      [⟨.dictT, [("other", some "x")]⟩]
      { name := "has_default", default := some "magical" } (by decide)
      (List.mem_cons_self _ _) ?_
    intro c hc
    rw [List.mem_singleton] at hc
    subst hc
    rfl
  · refine find_falls_back_to_default
      [({ name := "has_default", default := some "magical" } : ConfigVar String),
        { name := "no_default" }]
      [⟨.dictT, [("other", some "x")]⟩]
      { name := "no_default" } (by decide)
      (List.mem_cons_of_mem _ (List.mem_cons_self _ _)) ?_
    intro c hc
    rw [List.mem_singleton] at hc
    subst hc
    rfl

/-- C6: `append` and `prepend` on a value of unrecognized runtime shape
raise a `ConfigException` whose message names the value's type, and the
failed call produces no updated configuration (in this state-passing
embedding the source sequence of the input config is untouched and no
`ok` state exists). -/
theorem attach_unrecognized_fails {V : Type} (cc : CombinedConfig V) (c : Src V)
    (h : resolveShape c.ty = none) :
    cc.append c =
      Except.error ("Don't know how to fetch values from config with type " ++ typeName c.ty) ∧
    cc.prepend c =
      Except.error ("Don't know how to fetch values from config with type " ++ typeName c.ty) ∧
    (∀ cc' : CombinedConfig V, cc.append c ≠ Except.ok cc' ∧ cc.prepend c ≠ Except.ok cc') := by
  have hty := typeIn_false_of_unrecognized c.ty h
  refine ⟨?_, ?_, ?_⟩
  · simp [CombinedConfig.append, hty, noFetchMsg]
  · simp [CombinedConfig.prepend, hty, noFetchMsg]
  · intro cc'
    constructor
    · simp [CombinedConfig.append, hty]
    · simp [CombinedConfig.prepend, hty]

/-- Witness for C6 at a concrete unrecognized type. -/
theorem attach_unrecognized_fails_witness :
    (({ config_vars := [], defaults := [], configs := [] } : CombinedConfig String).append
        ⟨.otherT "<class 'tests.UnrecognizedType'>", []⟩) =
      Except.error ("Don't know how to fetch values from config with type " ++
        "<class 'tests.UnrecognizedType'>") :=
  (attach_unrecognized_fails
    { config_vars := [], defaults := [], configs := [] }
    ⟨.otherT "<class 'tests.UnrecognizedType'>", []⟩ rfl).1

/-- C10: `append`/`prepend` accept a source exactly when its runtime type
is exactly `dict`, `argparse.Namespace` or `configparser.SectionProxy`;
an instance of a proper subclass of a recognized type is rejected with a
`ConfigException`, even though `_get_value`'s MRO-based dispatch would
accept it (returns without raising) if it reached the source sequence. -/
theorem attach_requires_exact_type {V : Type} (cc : CombinedConfig V) (c : Src V)
    (b : PyType) (nm key : String) (sh : Shape)
    (hsub : c.ty = PyType.subclassOf b nm) (hres : resolveShape b = some sh) :
    cc.append c = Except.error (noFetchMsg c.ty) ∧
    cc.prepend c = Except.error (noFetchMsg c.ty) ∧
    (∃ r, getValue c key = Except.ok r) ∧
    (∀ c' : Src V, (∃ cc', cc.append c' = Except.ok cc') ↔ typeInConfigTypes c'.ty = true) := by
  have hty : typeInConfigTypes c.ty = false := by rw [hsub]; rfl
  refine ⟨by simp [CombinedConfig.append, hty], by simp [CombinedConfig.prepend, hty], ?_, ?_⟩
  · have hc : resolveShape c.ty = some sh := by
      rw [hsub]
      exact hres
    unfold getValue
    rw [hc]
    cases sh
    · exact ⟨_, rfl⟩
    · exact ⟨_, rfl⟩
    · exact ⟨_, rfl⟩
  · intro c'
    constructor
    · rintro ⟨cc', hcc'⟩
      cases htv : typeInConfigTypes c'.ty with
      | true => rfl
      | false => simp [CombinedConfig.append, htv] at hcc'
    · intro htrue
      exact ⟨{ cc with configs := cc.configs ++ [c'] },
        by simp [CombinedConfig.append, htrue]⟩

/-- Witness for C10: a `dict` proper subclass is rejected by `append`
although `_get_value` handles it. -/
theorem attach_requires_exact_type_witness :
    (({ config_vars := [], defaults := [], configs := [] } : CombinedConfig String).append
        ⟨.subclassOf .dictT "<class 'MyDict'>", [("k", some "v")]⟩) =
      Except.error (noFetchMsg (.subclassOf .dictT "<class 'MyDict'>")) ∧
    getValue (⟨.subclassOf .dictT "<class 'MyDict'>", [("k", some "v")]⟩ : Src String) "k" =
      Except.ok (some "v") :=
  ⟨(attach_requires_exact_type
      { config_vars := [], defaults := [], configs := [] }
      ⟨.subclassOf .dictT "<class 'MyDict'>", [("k", some "v")]⟩
      .dictT "<class 'MyDict'>" "k" .dictS rfl rfl).1,
    rfl⟩

theorem findIn_cons_error {V : Type} (df : List (String × V)) (key : String)
    (c : Src V) (l : List (Src V)) (e : String) (h : getValue c key = Except.error e) :
    findIn df key (c :: l) = Except.error e := by
  simp [findIn, h]

theorem findIn_ok_none_iff {V : Type} (df : List (String × V)) (key : String)
    (srcs : List (Src V)) :
    findIn df key srcs = Except.ok none ↔
      (∀ c ∈ srcs, getValue c key = Except.ok none) ∧ dictGet df key = none := by
  induction srcs with
  | nil => simp [findIn]
  | cons c rest ih =>
    cases hv : getValue c key with
    | error e =>
      rw [findIn_cons_error df key c rest e hv]
      simp only [List.forall_mem_cons]
      constructor
      · intro h
        simp at h
      · rintro ⟨⟨hc, -⟩, -⟩
        rw [hv] at hc
        simp at hc
    | ok v =>
      cases v with
      | some w =>
        rw [findIn_cons_some df key c rest w hv]
        simp only [List.forall_mem_cons]
        constructor
        · intro h
          simp at h
        · rintro ⟨⟨hc, -⟩, -⟩
          rw [hv] at hc
          simp at hc
      | none =>
        rw [findIn_cons_none df key c rest hv, ih]
        simp only [List.forall_mem_cons]
        constructor
        · rintro ⟨h1, h2⟩
          exact ⟨⟨hv, h1⟩, h2⟩
        · rintro ⟨⟨-, h1⟩, h2⟩
          exact ⟨h1, h2⟩

/-- C9: at the public interface a source value of `None` is
indistinguishable from absence: `find` returns `None` exactly when no
attached source supplies a non-`None` value for the key and the key has
no recorded (non-`None`) default; a source whose adapter yields `None`
for the key is skipped, leaving the result unchanged; and a `ConfigVar`
declared with `default=None` records no default. -/
theorem none_indistinguishable_from_absence {V : Type} (vars : List (ConfigVar V))
    (srcs : List (Src V)) (key : String) :
    (({ mkConfig vars with configs := srcs } : CombinedConfig V).find key = Except.ok none ↔
      (∀ c ∈ srcs, getValue c key = Except.ok none) ∧
        dictGet (mkConfig vars).defaults key = none) ∧
    (∀ c : Src V, getValue c key = Except.ok none →
      ({ mkConfig vars with configs := c :: srcs } : CombinedConfig V).find key =
        ({ mkConfig vars with configs := srcs } : CombinedConfig V).find key) ∧
    (∀ var ∈ vars, var.name = key → var.default = none →
      (vars.map ConfigVar.name).Nodup →
      dictGet (mkConfig vars).defaults key = none) := by
  refine ⟨?_, ?_, ?_⟩
  · exact findIn_ok_none_iff (mkConfig vars).defaults key srcs
  · intro c hc
    exact findIn_cons_none (mkConfig vars).defaults key c srcs hc
  · intro var hvar hname hdef hnd
    rw [← hname, mkConfig_defaults_get vars var hvar hnd, hdef]

/-- Witness for C9: a variable declared with `default=None` and a source
that maps the key to `None` resolves to `None`. -/
theorem none_indistinguishable_from_absence_witness :
    ({ mkConfig [({ name := "k", default := none } : ConfigVar String)] with
        configs := [⟨.dictT, [("k", none)]⟩] } : CombinedConfig String).find "k" =
      Except.ok none := by
  refine (none_indistinguishable_from_absence
      [({ name := "k", default := none } : ConfigVar String)]
      [⟨.dictT, [("k", none)]⟩] "k").1.mpr ⟨?_, rfl⟩
  intro c hc
  rw [List.mem_singleton] at hc
  subst hc
  rfl

theorem defaultedFilter_cons_nodefault {V : Type} [DecidableEq V] (cc : CombinedConfig V)
    (ks : List String) (k0 : String) (hd : dictGet cc.defaults k0 = none) :
    defaultedFilter cc (k0 :: ks) = defaultedFilter cc ks := by
  rw [defaultedFilter, hd]
  cases hrec : defaultedFilter cc ks <;> simp

theorem defaultedFilter_cons_find_error {V : Type} [DecidableEq V] (cc : CombinedConfig V)
    (ks : List String) (k0 : String) (d : V) (e : String)
    (hd : dictGet cc.defaults k0 = some d) (hfind : cc.find k0 = Except.error e) :
    defaultedFilter cc (k0 :: ks) = Except.error e := by
  rw [defaultedFilter, hd, hfind]

theorem defaultedFilter_cons_default {V : Type} [DecidableEq V] (cc : CombinedConfig V)
    (ks : List String) (k0 : String) (d : V) (v : Option V)
    (hd : dictGet cc.defaults k0 = some d) (hfind : cc.find k0 = Except.ok v) :
    defaultedFilter cc (k0 :: ks) =
      match defaultedFilter cc ks with
      | .error e => .error e
      | .ok rest => .ok (if v = some d then k0 :: rest else rest) := by
  rw [defaultedFilter, hd, hfind]
  cases hrec : defaultedFilter cc ks <;> simp

theorem defaultedFilter_mem_iff {V : Type} [DecidableEq V] (cc : CombinedConfig V)
    (ks : List String) (s : List String) (hs : defaultedFilter cc ks = Except.ok s)
    (k : String) :
    k ∈ s ↔ k ∈ ks ∧ ∃ d, dictGet cc.defaults k = some d ∧ cc.find k = Except.ok (some d) := by
  induction ks generalizing s with
  | nil =>
    rw [defaultedFilter] at hs
    injection hs with hs
    subst hs
    simp
  | cons k0 ks ih =>
    cases hd : dictGet cc.defaults k0 with
    | none =>
      rw [defaultedFilter_cons_nodefault cc ks k0 hd] at hs
      rw [ih s hs]
      constructor
      · rintro ⟨h1, h2⟩
        exact ⟨List.mem_cons_of_mem k0 h1, h2⟩
      · rintro ⟨h1, h2⟩
        rcases List.mem_cons.mp h1 with heq | hmem
        · subst heq
          rcases h2 with ⟨d, hd', -⟩
          rw [hd] at hd'
          cases hd'
        · exact ⟨hmem, h2⟩
    | some d =>
      cases hfind : cc.find k0 with
      | error e =>
        rw [defaultedFilter_cons_find_error cc ks k0 d e hd hfind] at hs
        exact absurd hs (by simp)
      | ok v =>
        rw [defaultedFilter_cons_default cc ks k0 d v hd hfind] at hs
        cases hrec : defaultedFilter cc ks with
        | error e =>
          rw [hrec] at hs
          exact absurd hs (by simp)
        | ok rest =>
          rw [hrec] at hs
          injection hs with hs
          subst hs
          by_cases hveq : v = some d
          · rw [if_pos hveq]
            constructor
            · intro hk
              rcases List.mem_cons.mp hk with heq | hmem
              · subst heq
                exact ⟨List.mem_cons_self k ks, d, hd, by rw [hfind, hveq]⟩
              · rcases (ih rest hrec).mp hmem with ⟨h1, h2⟩
                exact ⟨List.mem_cons_of_mem k0 h1, h2⟩
            · rintro ⟨h1, h2⟩
              rcases List.mem_cons.mp h1 with heq | hmem
              · subst heq
                exact List.mem_cons_self k rest
              · exact List.mem_cons_of_mem k0 ((ih rest hrec).mpr ⟨hmem, h2⟩)
          · rw [if_neg hveq]
            rw [ih rest hrec]
            constructor
            · rintro ⟨h1, h2⟩
              exact ⟨List.mem_cons_of_mem k0 h1, h2⟩
            · rintro ⟨h1, h2⟩
              rcases List.mem_cons.mp h1 with heq | hmem
              · subst heq
                rcases h2 with ⟨d', hd', hfind'⟩
                rw [hd] at hd'
                injection hd' with hd'
                subst hd'
                rw [hfind] at hfind'
                injection hfind' with hfind'
                exact absurd hfind' hveq
              · exact ⟨hmem, h2⟩

/-- C5: `defaulted_values` is exactly the set of declared names that
have a recorded default and whose current `find` result is value-equal
to that default (so a variable whose earliest supplying source gives a
different value is excluded, even if a later source supplies the default
value). -/
theorem defaulted_values_exact {V : Type} [DecidableEq V] (cc : CombinedConfig V)
    (s : List String) (hs : cc.defaulted_values = Except.ok s) (k : String) :
    k ∈ s ↔ k ∈ varNames cc ∧
      ∃ d, dictGet cc.defaults k = some d ∧ cc.find k = Except.ok (some d) :=
  defaultedFilter_mem_iff cc (varNames cc) s hs k

/-- Concrete config for the C5 witness: `x` defaults to `"d"`, its
earliest supplying source gives `"e"`, a later source gives `"d"`. -/
def ccW5 : CombinedConfig String :=
  { mkConfig [{ name := "x", default := some "d" }] with
    configs := [⟨.dictT, [("x", some "e")]⟩, ⟨.dictT, [("x", some "d")]⟩] }

/-- Witness for C5: in `ccW5`, `defaulted_values` is empty, and the
characterization instantiates at `"x"`. -/
theorem defaulted_values_exact_witness :
    "x" ∈ ([] : List String) ↔
      "x" ∈ varNames ccW5 ∧
        ∃ d, dictGet ccW5.defaults "x" = some d ∧ ccW5.find "x" = Except.ok (some d) :=
  defaulted_values_exact ccW5 [] (by decide) "x"

/-- Concrete config for the C3 scenario: variables
`{four: default "score", and: no default}` with an attached mapping
`{four: "score", and: "seven"}`. -/
def ccW3 : CombinedConfig String :=
  { mkConfig [{ name := "four", default := some "score" }, { name := "and" }] with
    configs := [⟨.dictT, [("four", some "score"), ("and", some "seven")]⟩] }

/-- The C3 scenario's file-backed config, writing to one `__ALL__`
section. -/
def fbW3 : FileBackedConfig := { cc := ccW3, ini_section_names := [("CONFIG", .all)] }

/-- C3: `write` persists exactly the entries of `variables_with_values`
whose key is CLI-provided or not currently defaulted — a key of
`variables_with_values` is omitted from the persistable set iff its
resolved value equals its recorded default and no CLI-parse-result
source supplies it; concretely, in the `ccW3`/`fbW3` scenario, writing
to an `__ALL__` section produces a document whose single section holds
exactly `and = seven`. -/
theorem write_persists_cli_or_nondefaulted (cc : CombinedConfig String)
    (ds pv : List String) (vw ps : List (String × String))
    (hd : cc.defaulted_values = Except.ok ds)
    (hp : cc.provided_args = Except.ok pv)
    (hv : cc.variables_with_values = Except.ok vw)
    (hps : persistable cc = Except.ok ps) :
    (∀ k v, ((k, v) ∈ ps ↔ (k, v) ∈ vw ∧ (k ∈ pv ∨ k ∉ ds))) ∧
    fbW3.write [] = Except.ok [("CONFIG", [("and", "seven")])] := by
  constructor
  · have hps' : ps = vw.filter (fun kv => pv.contains kv.1 || !(ds.contains kv.1)) := by
      unfold persistable at hps
      rw [hd, hp, hv] at hps
      injection hps with h
      exact h.symm
    subst hps'
    intro k v
    rw [List.mem_filter]
    constructor
    · rintro ⟨h1, h2⟩
      exact ⟨h1, by simpa using h2⟩
    · rintro ⟨h1, h2⟩
      exact ⟨h1, by simpa using h2⟩
  · decide

/-- Witness for C3 at the scenario config: the persistable-set
characterization instantiated at `("and", "seven")`, plus the concrete
written document. -/
theorem write_persists_cli_or_nondefaulted_witness :
    (("and", "seven") ∈ [("and", "seven")] ↔
      ("and", "seven") ∈ [("four", "score"), ("and", "seven")] ∧
        ("and" ∈ ([] : List String) ∨ "and" ∉ ["four"])) ∧
    fbW3.write [] = Except.ok [("CONFIG", [("and", "seven")])] := by
  have h := write_persists_cli_or_nondefaulted ccW3 ["four"] []
    [("four", "score"), ("and", "seven")] [("and", "seven")]
    (by decide) (by decide) (by decide) (by decide)
  exact ⟨h.1 "and" "seven", h.2⟩

theorem append_sectionSrc_ok (cc : CombinedConfig String) (kvs : List (String × String)) :
    cc.append (sectionSrc kvs) =
      Except.ok { cc with configs := cc.configs ++ [sectionSrc kvs] } := rfl

theorem readSections_ok (doc : IniDoc) (lst : List (String × SectionSpec))
    (cc : CombinedConfig String) :
    readSections doc lst cc = Except.ok
      { cc with configs := cc.configs ++
          lst.filterMap (fun p => (dictGet doc p.1).map sectionSrc) } := by
  induction lst generalizing cc with
  | nil => simp [readSections]
  | cons p rest ih =>
    obtain ⟨n, spec⟩ := p
    cases hdoc : dictGet doc n with
    | some kvs =>
      simp only [readSections, hdoc, append_sectionSrc_ok, List.filterMap_cons,
        Option.map_some']
      rw [ih]
      simp [List.append_assoc]
    | none =>
      simp only [readSections, hdoc, List.filterMap_cons, Option.map_none']
      exact ih cc

/-- C7: `read` attaches, for every declared section name present in the
parsed file and in declared order, that file section as a source at the
back of the source sequence (lowest precedence among sources); declared
sections absent from the file are skipped; and a file value affects
`find` only when no earlier-attached source supplies the key — if some
already-attached source supplies it, `find` is unchanged by `read`. -/
theorem read_appends_file_sections_last (fb : FileBackedConfig) (doc : IniDoc) :
    fb.read doc = Except.ok
      { fb.cc with configs := fb.cc.configs ++
          fb.ini_section_names.filterMap (fun p => (dictGet doc p.1).map sectionSrc) } ∧
    (∀ key v cc', fb.read doc = Except.ok cc' →
      (∃ c ∈ fb.cc.configs, getValue c key = Except.ok (some v)) →
      cc'.find key = fb.cc.find key) := by
  constructor
  · exact readSections_ok doc fb.ini_section_names fb.cc
  · rintro key v cc' hrd ⟨c, hc, hcv⟩
    have h2 : fb.read doc = readSections doc fb.ini_section_names fb.cc := rfl
    rw [h2, readSections_ok doc fb.ini_section_names fb.cc] at hrd
    injection hrd with hrd
    subst hrd
    show findIn fb.cc.defaults key (fb.cc.configs ++ _) = fb.cc.find key
    rw [findIn_append_of_hit fb.cc.defaults key fb.cc.configs _
      ⟨c, hc, by rw [hcv]; simp⟩]
    rfl

/-- Concrete config for the C7 witness, mirroring the repository's
`test_read`: one mapping already attached, a file with one of the two
declared sections. -/
def ccW7 : CombinedConfig String :=
  { mkConfig [{ name := "four" }, { name := "and" },
      { name := "years", default := some "ago" }] with
    configs := [⟨.dictT, [("four", some "thousand")]⟩] }

/-- The C7 witness's file-backed config with two declared sections. -/
def fbW7 : FileBackedConfig :=
  { cc := ccW7, ini_section_names := [("testsection", .all), ("missing", .all)] }

/-- The C7 witness's parsed file: `testsection` present, `missing`
absent. -/
def docW7 : IniDoc := [("testsection", [("four", "score"), ("and", "seven")])]

/-- Witness for C7: reading attaches exactly the present section at the
back, and the already-supplied key `four` still resolves as before. -/
theorem read_appends_file_sections_last_witness :
    fbW7.read docW7 = Except.ok
      { fbW7.cc with configs := fbW7.cc.configs ++
          fbW7.ini_section_names.filterMap (fun p => (dictGet docW7 p.1).map sectionSrc) } ∧
    ({ fbW7.cc with configs := fbW7.cc.configs ++
        fbW7.ini_section_names.filterMap (fun p => (dictGet docW7 p.1).map sectionSrc) } :
      CombinedConfig String).find "four" = fbW7.cc.find "four" := by
  have h := read_appends_file_sections_last fbW7 docW7
  refine ⟨h.1, h.2 "four" "thousand" _ h.1 ⟨⟨.dictT, [("four", some "thousand")]⟩, ?_, ?_⟩⟩
  · show _ ∈ ccW7.configs
    exact List.mem_cons_self _ _
  · rfl

theorem fillExplicitAux_get (vars : List (String × String)) (l : List String)
    (acc : List (String × String)) (k : String) :
    dictGet (l.foldl (fun acc k' =>
      match dictGet vars k' with
      | some v => dictSet acc k' v
      | none => acc) acc) k =
      if k ∈ l ∧ (dictGet vars k).isSome then dictGet vars k else dictGet acc k := by
  induction l generalizing acc with
  | nil => simp
  | cons k0 l ih =>
    rw [List.foldl_cons, ih]
    by_cases hk : k = k0
    · subst hk
      cases hv : dictGet vars k with
      | some v =>
        by_cases hmem : k ∈ l
        · simp [hmem, hv]
        · simp [hmem, hv, dictGet_dictSet_self]
      | none =>
        simp [hv]
    · cases hv : dictGet vars k0 with
      | some v =>
        rw [dictGet_dictSet_ne acc k0 k v hk]
        simp [List.mem_cons, hk]
      | none =>
        simp [List.mem_cons, hk]

theorem fillExplicit_get_iff (vars : List (String × String)) (l : List String)
    (k : String) (v : String) :
    dictGet (fillExplicit vars l) k = some v ↔ k ∈ l ∧ dictGet vars k = some v := by
  unfold fillExplicit
  rw [fillExplicitAux_get]
  by_cases hc : k ∈ l ∧ (dictGet vars k).isSome
  · rw [if_pos hc]
    exact ⟨fun h => ⟨hc.1, h⟩, fun h => h.2⟩
  · rw [if_neg hc]
    constructor
    · intro h
      simp [dictGet] at h
    · rintro ⟨h1, h2⟩
      exact absurd ⟨h1, by rw [h2]; rfl⟩ hc

theorem buildAux_all_first (vars : List (String × String))
    (pre post : List (String × SectionSpec)) (n : String)
    (hpre : ∀ q ∈ pre, q.2 ≠ SectionSpec.all) (acc : IniDoc) :
    buildSectionValuesAux vars (pre ++ (n, SectionSpec.all) :: post) acc = [(n, vars)] := by
  induction pre generalizing acc with
  | nil => rfl
  | cons q pre ih =>
    obtain ⟨m, spec⟩ := q
    cases spec with
    | all => exact absurd rfl (hpre (m, SectionSpec.all) (List.mem_cons_self _ _))
    | names l =>
      rw [List.cons_append]
      show buildSectionValuesAux vars (pre ++ (n, SectionSpec.all) :: post)
        (dictSet acc m (fillExplicit vars l)) = [(n, vars)]
      exact ih (fun u hu => hpre u (List.mem_cons_of_mem _ hu)) _

theorem buildAux_explicit_stable (vars : List (String × String))
    (lst : List (String × SectionSpec)) (acc : IniDoc) (n : String)
    (hall : ∀ q ∈ lst, q.2 ≠ SectionSpec.all) (hn : ∀ q ∈ lst, q.1 ≠ n) :
    dictGet (buildSectionValuesAux vars lst acc) n = dictGet acc n := by
  induction lst generalizing acc with
  | nil => rfl
  | cons q lst ih =>
    obtain ⟨m, spec⟩ := q
    cases spec with
    | all => exact absurd rfl (hall (m, SectionSpec.all) (List.mem_cons_self _ _))
    | names l =>
      show dictGet (buildSectionValuesAux vars lst (dictSet acc m (fillExplicit vars l))) n =
        dictGet acc n
      rw [ih (dictSet acc m (fillExplicit vars l))
        (fun u hu => hall u (List.mem_cons_of_mem _ hu))
        (fun u hu => hn u (List.mem_cons_of_mem _ hu))]
      exact dictGet_dictSet_ne acc m n (fillExplicit vars l)
        (fun hnm => (hn (m, SectionSpec.names l) (List.mem_cons_self _ _)) hnm.symm)

theorem buildAux_explicit_get (vars : List (String × String))
    (lst : List (String × SectionSpec)) (acc : IniDoc) (n : String) (l : List String)
    (hall : ∀ q ∈ lst, q.2 ≠ SectionSpec.all) (hmem : (n, SectionSpec.names l) ∈ lst)
    (hnd : (lst.map Prod.fst).Nodup) :
    dictGet (buildSectionValuesAux vars lst acc) n = some (fillExplicit vars l) := by
  induction lst generalizing acc with
  | nil => cases hmem
  | cons q lst ih =>
    obtain ⟨m, spec⟩ := q
    rw [List.map_cons, List.nodup_cons] at hnd
    cases spec with
    | all => exact absurd rfl (hall (m, SectionSpec.all) (List.mem_cons_self _ _))
    | names l' =>
      show dictGet (buildSectionValuesAux vars lst (dictSet acc m (fillExplicit vars l'))) n = _
      rcases List.mem_cons.mp hmem with heq | hrest
      · injection heq with h1 h2
        injection h2 with h2
        subst h1
        subst h2
        have hstable : ∀ u ∈ lst, u.1 ≠ n := by
          intro u hu hun
          apply hnd.1
          show n ∈ List.map Prod.fst lst
          rw [← hun]
          exact List.mem_map_of_mem Prod.fst hu
        rw [buildAux_explicit_stable vars lst (dictSet acc n (fillExplicit vars l)) n
          (fun u hu => hall u (List.mem_cons_of_mem _ hu)) hstable]
        exact dictGet_dictSet_self acc n (fillExplicit vars l)
      · exact ih (dictSet acc m (fillExplicit vars l'))
          (fun u hu => hall u (List.mem_cons_of_mem _ hu)) hrest hnd.2

/-- Concrete config for the C4 counterexample: one variable `x` supplied
as `"1"` by a mapping (no default, so it is persistable). -/
def ccW4 : CombinedConfig String :=
  { mkConfig [{ name := "x" }] with configs := [⟨.dictT, [("x", some "1")]⟩] }

/-- The C4 counterexample's file-backed config: a mapping that mixes the
explicit-list section `A = ("x",)` with the `__ALL__` section `B`. -/
def fbW4 : FileBackedConfig :=
  { cc := ccW4, ini_section_names := [("A", .names ["x"]), ("B", .all)] }

/-- Counterexample to C4 as stated: with the mixed mapping of `fbW4`,
the persistable set is `{x: "1"}` and `"x"` is in section `A`'s explicit
list, yet the document written to an empty file has no `A` section at
all — the explicit-list section does not receive the intersection of its
list with the persistable set, because the `__ALL__` assignment replaces
the whole computed dict and breaks out of the loop. -/
theorem explicit_section_with_marker_counterexample :
    persistable fbW4.cc = Except.ok [("x", "1")] ∧
    fbW4.write [] = Except.ok [("B", [("x", "1")])] ∧
    dictGet ([("B", [("x", "1")])] : IniDoc) "A" = none :=
  ⟨by decide, by decide, rfl⟩

/-- C4 (amended): `write` partitions the persistable set over the
declared ini sections as follows: when no section's entry is the
`__ALL__` marker, every section with an explicit name list receives
exactly the intersection of that list with the persistable set; when
some section uses the marker, the first such section receives the entire
persistable set and the computed section assignment consists of that
section alone, so explicit-list sections of a mixed mapping receive
nothing. `write` then merges the computed sections into the on-disk
document. -/
theorem write_partitions_sections (iniNames : List (String × SectionSpec))
    (vars : List (String × String)) :
    ((iniNames.map Prod.fst).Nodup →
      (∀ q ∈ iniNames, q.2 ≠ SectionSpec.all) →
      ∀ n l, (n, SectionSpec.names l) ∈ iniNames →
        ∃ kvs, dictGet (buildSectionValues iniNames vars) n = some kvs ∧
          ∀ k v, (dictGet kvs k = some v ↔ k ∈ l ∧ dictGet vars k = some v)) ∧
    (∀ pre n post, iniNames = pre ++ (n, SectionSpec.all) :: post →
      (∀ q ∈ pre, q.2 ≠ SectionSpec.all) →
      buildSectionValues iniNames vars = [(n, vars)]) ∧
    (∀ fb : FileBackedConfig, ∀ doc : IniDoc, ∀ ps,
      persistable fb.cc = Except.ok ps →
      fb.write doc = Except.ok (readDict doc (buildSectionValues fb.ini_section_names ps))) := by
  refine ⟨?_, ?_, ?_⟩
  · intro hnd hall n l hmem
    refine ⟨fillExplicit vars l, ?_, fun k v => fillExplicit_get_iff vars l k v⟩
    unfold buildSectionValues
    exact buildAux_explicit_get vars iniNames _ n l hall hmem hnd
  · intro pre n post heq hpre
    unfold buildSectionValues
    rw [heq]
    exact buildAux_all_first vars pre post n hpre _
  · intro fb doc ps hps
    unfold FileBackedConfig.write
    rw [hps]

/-- Witness for the amended C4: in the mixed mapping the whole computed
assignment is the marker section with the full persistable set, and in
an explicit-only mapping the section receives exactly the intersection,
instantiated at the key `x`. -/
theorem write_partitions_sections_witness :
    buildSectionValues [("A", SectionSpec.names ["x"]), ("B", SectionSpec.all)]
      [("x", "1")] = [("B", [("x", "1")])] ∧
    dictGet (buildSectionValues [("A", SectionSpec.names ["x"])] [("x", "1")]) "A" =
      some [("x", "1")] ∧
    (dictGet ([("x", "1")] : List (String × String)) "x" = some "1" ↔
      "x" ∈ ["x"] ∧ dictGet ([("x", "1")] : List (String × String)) "x" = some "1") := by
  refine ⟨?_, ?_, ?_⟩
  · exact (write_partitions_sections
        [("A", SectionSpec.names ["x"]), ("B", SectionSpec.all)] [("x", "1")]).2.1
      [("A", SectionSpec.names ["x"])] "B" [] rfl
      (by
        intro q hq
        rw [List.mem_singleton] at hq
        subst hq
        simp)
  · obtain ⟨kvs, h1, -⟩ := (write_partitions_sections
        [("A", SectionSpec.names ["x"])] [("x", "1")]).1
      (by decide)
      (by
        intro q hq
        rw [List.mem_singleton] at hq
        subst hq
        simp)
      "A" ["x"] (List.mem_singleton_self _)
    have hkvs : kvs = [("x", "1")] := by
      have heval : dictGet (buildSectionValues [("A", SectionSpec.names ["x"])] [("x", "1")]) "A" =
          some [("x", "1")] := by decide
      rw [heval] at h1
      injection h1 with h
      exact h.symm
    rw [hkvs] at h1
    exact h1
  · obtain ⟨kvs, h1, h2⟩ := (write_partitions_sections
        [("A", SectionSpec.names ["x"])] [("x", "1")]).1
      (by decide)
      (by
        intro q hq
        rw [List.mem_singleton] at hq
        subst hq
        simp)
      "A" ["x"] (List.mem_singleton_self _)
    have hkvs : kvs = [("x", "1")] := by
      have heval : dictGet (buildSectionValues [("A", SectionSpec.names ["x"])] [("x", "1")]) "A" =
          some [("x", "1")] := by decide
      rw [heval] at h1
      injection h1 with h
      exact h.symm
    subst hkvs
    exact h2 "x" "1"

theorem any_of_dictGet_some {α : Type} (d : List (String × α)) (k : String) (v : α)
    (h : dictGet d k = some v) : (d.any (fun p => p.1 = k)) = true := by
  induction d with
  | nil => simp [dictGet] at h
  | cons p rest ih =>
    by_cases hp : p.1 = k
    · simp [hp]
    · rw [dictGet_cons, if_neg hp] at h
      simp [hp, ih h]

theorem mergeMap_get_other (doc : IniDoc) (n m : String)
    (kvs : List (String × String)) (h : m ≠ n) :
    dictGet (doc.map (fun p =>
      if p.1 = n then
        (p.1, kvs.foldl (fun s kv => dictSet s (optionxform kv.1) kv.2) p.2)
      else p)) m = dictGet doc m := by
  induction doc with
  | nil => rfl
  | cons p rest ih =>
    by_cases hp : p.1 = n
    · have hpm : ¬ p.1 = m := by
        rw [hp]
        exact fun hnm => h hnm.symm
      simp [dictGet_cons, hp, hpm, Ne.symm h, ih]
    · by_cases hpm : p.1 = m
      · simp [dictGet_cons, hp, hpm, h, Ne.symm h]
      · simp [dictGet_cons, hp, hpm, h, Ne.symm h, ih]

theorem mergeMap_get_self (doc : IniDoc) (n : String)
    (kvs cur : List (String × String)) (hget : dictGet doc n = some cur) :
    dictGet (doc.map (fun p =>
      if p.1 = n then
        (p.1, kvs.foldl (fun s kv => dictSet s (optionxform kv.1) kv.2) p.2)
      else p)) n =
      some (kvs.foldl (fun s kv => dictSet s (optionxform kv.1) kv.2) cur) := by
  induction doc with
  | nil => simp [dictGet] at hget
  | cons p rest ih =>
    by_cases hp : p.1 = n
    · rw [dictGet_cons, if_pos hp] at hget
      injection hget with hget
      simp [dictGet_cons, hp, hget]
    · rw [dictGet_cons, if_neg hp] at hget
      simp [dictGet_cons, hp, ih hget]

theorem mergeSection_get_other (doc : IniDoc) (n m : String)
    (kvs : List (String × String)) (h : m ≠ n) :
    dictGet (mergeSection doc n kvs) m = dictGet doc m := by
  unfold mergeSection
  by_cases hany : (doc.any (fun p => p.1 = n)) = true
  · rw [if_pos hany]
    exact mergeMap_get_other doc n m kvs h
  · rw [if_neg hany, mergeMap_get_other (doc ++ [(n, [])]) n m kvs h, dictGet_append]
    cases hd : dictGet doc m with
    | some v => rfl
    | none => simp [dictGet_cons, dictGet, Ne.symm h]

theorem mergeSection_get_self (doc : IniDoc) (n : String)
    (kvs cur : List (String × String)) (hget : dictGet doc n = some cur) :
    dictGet (mergeSection doc n kvs) n =
      some (kvs.foldl (fun s kv => dictSet s (optionxform kv.1) kv.2) cur) := by
  unfold mergeSection
  rw [if_pos (any_of_dictGet_some doc n cur hget)]
  exact mergeMap_get_self doc n kvs cur hget

theorem readDict_get_unmentioned (doc : IniDoc) (values : IniDoc) (n : String)
    (h : ∀ q ∈ values, q.1 ≠ n) :
    dictGet (readDict doc values) n = dictGet doc n := by
  induction values generalizing doc with
  | nil => rfl
  | cons q rest ih =>
    show dictGet (readDict (mergeSection doc q.1 q.2) rest) n = dictGet doc n
    rw [ih (mergeSection doc q.1 q.2) (fun u hu => h u (List.mem_cons_of_mem q hu))]
    exact mergeSection_get_other doc q.1 n q.2
      (fun hnm => (h q (List.mem_cons_self q rest)) hnm.symm)

theorem foldl_dictSet_get_ne (kvs : List (String × String))
    (cur : List (String × String)) (k : String)
    (h : ∀ q ∈ kvs, optionxform q.1 ≠ k) :
    dictGet (kvs.foldl (fun s kv => dictSet s (optionxform kv.1) kv.2) cur) k =
      dictGet cur k := by
  induction kvs generalizing cur with
  | nil => rfl
  | cons q rest ih =>
    rw [List.foldl_cons, ih _ (fun u hu => h u (List.mem_cons_of_mem q hu))]
    exact dictGet_dictSet_ne cur (optionxform q.1) k q.2
      (fun hk => (h q (List.mem_cons_self q rest)) hk.symm)

theorem readDict_preserves_key (doc : IniDoc) (values : IniDoc) (n : String)
    (cur ckvs : List (String × String)) (k v : String)
    (hnd : (values.map Prod.fst).Nodup)
    (hdoc : dictGet doc n = some cur)
    (hval : dictGet values n = some ckvs)
    (hk : dictGet cur k = some v)
    (hkeys : ∀ q ∈ ckvs, optionxform q.1 ≠ k) :
    ∃ kvs', dictGet (readDict doc values) n = some kvs' ∧ dictGet kvs' k = some v := by
  induction values generalizing doc with
  | nil => simp [dictGet] at hval
  | cons q rest ih =>
    obtain ⟨m, mkvs⟩ := q
    rw [List.map_cons, List.nodup_cons] at hnd
    show ∃ kvs', dictGet (readDict (mergeSection doc m mkvs) rest) n = some kvs' ∧
      dictGet kvs' k = some v
    by_cases hm : m = n
    · subst hm
      rw [dictGet_cons, if_pos rfl] at hval
      injection hval with hval
      subst hval
      have hrest : ∀ u ∈ rest, u.1 ≠ m := by
        intro u hu hun
        apply hnd.1
        show m ∈ List.map Prod.fst rest
        rw [← hun]
        exact List.mem_map_of_mem Prod.fst hu
      refine ⟨mkvs.foldl (fun s kv => dictSet s (optionxform kv.1) kv.2) cur, ?_, ?_⟩
      · rw [readDict_get_unmentioned (mergeSection doc m mkvs) rest m hrest]
        exact mergeSection_get_self doc m mkvs cur hdoc
      · rw [foldl_dictSet_get_ne mkvs cur k hkeys]
        exact hk
    · rw [dictGet_cons, if_neg hm] at hval
      exact ih (mergeSection doc m mkvs) hnd.2
        (by rw [mergeSection_get_other doc m n mkvs (fun hnm => hm hnm.symm)]; exact hdoc)
        hval

theorem buildAux_nodup (vars : List (String × String))
    (lst : List (String × SectionSpec)) (acc : IniDoc)
    (hacc : (acc.map Prod.fst).Nodup) :
    ((buildSectionValuesAux vars lst acc).map Prod.fst).Nodup := by
  induction lst generalizing acc with
  | nil => exact hacc
  | cons q lst ih =>
    obtain ⟨m, spec⟩ := q
    cases spec with
    | all =>
      show (([(m, vars)] : IniDoc).map Prod.fst).Nodup
      simp
    | names l =>
      exact ih (dictSet acc m (fillExplicit vars l))
        (dictSet_nodup_fst acc m (fillExplicit vars l) hacc)

theorem buildSectionValues_nodup (iniNames : List (String × SectionSpec))
    (vars : List (String × String)) (hnd : (iniNames.map Prod.fst).Nodup) :
    ((buildSectionValues iniNames vars).map Prod.fst).Nodup := by
  unfold buildSectionValues
  apply buildAux_nodup
  rw [List.map_map]
  simpa using hnd

/-- C8: `write` re-reads the on-disk document and merges the computed
sections into it before writing the merged document back: every
pre-existing section not among the computed sections is contained
unchanged in the written document, and every pre-existing key of a
computed section that the computed values do not set (after the
lower-casing `read_dict` applies to incoming keys) keeps its value in
the written document. -/
theorem write_preserves_unrelated (fb : FileBackedConfig) (doc : IniDoc)
    (ps : List (String × String)) (hps : persistable fb.cc = Except.ok ps)
    (hnd : (fb.ini_section_names.map Prod.fst).Nodup) :
    fb.write doc = Except.ok (readDict doc (buildSectionValues fb.ini_section_names ps)) ∧
    (∀ n cur, dictGet doc n = some cur →
      (∀ q ∈ buildSectionValues fb.ini_section_names ps, q.1 ≠ n) →
      dictGet (readDict doc (buildSectionValues fb.ini_section_names ps)) n = some cur) ∧
    (∀ n cur ckvs k v, dictGet doc n = some cur →
      dictGet (buildSectionValues fb.ini_section_names ps) n = some ckvs →
      dictGet cur k = some v →
      (∀ q ∈ ckvs, optionxform q.1 ≠ k) →
      ∃ kvs', dictGet (readDict doc (buildSectionValues fb.ini_section_names ps)) n =
          some kvs' ∧ dictGet kvs' k = some v) := by
  refine ⟨?_, ?_, ?_⟩
  · unfold FileBackedConfig.write
    rw [hps]
  · intro n cur hdoc hmiss
    rw [readDict_get_unmentioned doc _ n hmiss]
    exact hdoc
  · intro n cur ckvs k v hdoc hval hk hkeys
    exact readDict_preserves_key doc _ n cur ckvs k v
      (buildSectionValues_nodup fb.ini_section_names ps hnd) hdoc hval hk hkeys

/-- Concrete config for the C8 witness: one persistable variable `and`
written into an `__ALL__` section. -/
def ccW8 : CombinedConfig String :=
  { mkConfig [{ name := "and" }] with
    configs := [⟨.dictT, [("and", some "seven")]⟩] }

/-- The C8 witness's file-backed config. -/
def fbW8 : FileBackedConfig := { cc := ccW8, ini_section_names := [("CONFIG", .all)] }

/-- The C8 witness's pre-existing on-disk document: an unrelated section
`OTHER` and a `CONFIG` section holding an unrelated key `old` plus a
stale value for `and`. -/
def docW8 : IniDoc :=
  [("OTHER", [("k", "v")]), ("CONFIG", [("old", "1"), ("and", "x")])]

/-- Witness for C8: writing over `docW8` keeps the unrelated `OTHER`
section and the unrelated key `old` of the rewritten `CONFIG` section,
while updating `and`. -/
theorem write_preserves_unrelated_witness :
    fbW8.write docW8 = Except.ok
      [("OTHER", [("k", "v")]), ("CONFIG", [("old", "1"), ("and", "seven")])] ∧
    dictGet (readDict docW8 (buildSectionValues fbW8.ini_section_names [("and", "seven")]))
      "OTHER" = some [("k", "v")] ∧
    dictGet ([("old", "1"), ("and", "seven")] : List (String × String)) "old" = some "1" := by
  have h := write_preserves_unrelated fbW8 docW8 [("and", "seven")] (by decide) (by decide)
  refine ⟨?_, ?_, ?_⟩
  · rw [h.1]
    decide
  · exact h.2.1 "OTHER" [("k", "v")] (by decide) (by decide)
  · obtain ⟨kvs', h1, h2⟩ := h.2.2 "CONFIG" [("old", "1"), ("and", "x")] [("and", "seven")]
      "old" "1" (by decide) (by decide) (by decide) (by decide)
    have hkvs : kvs' = [("old", "1"), ("and", "seven")] := by
      have heval : dictGet (readDict docW8
          (buildSectionValues fbW8.ini_section_names [("and", "seven")])) "CONFIG" =
          some [("old", "1"), ("and", "seven")] := by decide
      rw [heval] at h1
      injection h1 with h1
      exact h1.symm
    rw [hkvs] at h2
    exact h2
